import Mathlib

/-!
Verification of the URL Threat Scoring Engine (`analysis-api/main.py`).

The Python engine computes with IEEE-754 binary64 floating point.  Every
float value that the scoring pipeline manipulates is an exact dyadic
rational, so we model binary64 values as rational numbers together with an
explicit round-to-nearest, ties-to-even rounding function `roundDouble`
(53-bit significand, no overflow or subnormals: every quantity handled by
the engine lies well inside the normal range).  Float addition and
multiplication are exact-rational operations followed by `roundDouble`,
which is exactly the IEEE semantics.  Decimal literals of the source
(`0.1`, `0.3`, ...) denote the binary64 value nearest to the decimal
number, i.e. `roundDouble` of the exact rational.

The one genuinely transcendental quantity, Shannon entropy computed with
`math.log2`, is modelled as a real number; the scorer only consumes it
through the comparison `entropy > 5.0`.
-/

/-- Round a rational to the nearest integer, ties to even. -/
def rhe (q : ℚ) : ℤ :=
  if q - ⌊q⌋ < 1/2 then ⌊q⌋
  else if 1/2 < q - ⌊q⌋ then ⌊q⌋ + 1
  else if 2 ∣ ⌊q⌋ then ⌊q⌋ else ⌊q⌋ + 1

/-- Round a rational to the nearest IEEE-754 binary64 value (round to
nearest, ties to even, 53-bit significand, unbounded exponent). -/
def roundDouble (q : ℚ) : ℚ :=
  if 0 < q then
    (rhe (q * 2 ^ ((52 : ℤ) - Int.log 2 q)) : ℚ) * 2 ^ (Int.log 2 q - 52)
  else if q < 0 then
    -((rhe (-q * 2 ^ ((52 : ℤ) - Int.log 2 (-q))) : ℚ) * 2 ^ (Int.log 2 (-q) - 52))
  else 0

lemma rhe_intCast (n : ℤ) : rhe (n : ℚ) = n := by
  unfold rhe
  rw [Int.floor_intCast]
  norm_num

lemma rhe_eq_low {q : ℚ} {n : ℤ} (h1 : (n : ℚ) ≤ q) (h2 : q < (n : ℚ) + 1/2) :
    rhe q = n := by
  have hf : ⌊q⌋ = n := Int.floor_eq_iff.mpr ⟨h1, by linarith⟩
  unfold rhe
  rw [hf, if_pos (by linarith)]

lemma rhe_eq_high {q : ℚ} {n : ℤ} (h1 : (n : ℚ) + 1/2 < q) (h2 : q < (n : ℚ) + 1) :
    rhe q = n + 1 := by
  have hf : ⌊q⌋ = n := Int.floor_eq_iff.mpr ⟨by linarith, by linarith⟩
  unfold rhe
  rw [hf, if_neg (by linarith), if_pos (by linarith)]

lemma rhe_eq_half_even {q : ℚ} {n : ℤ} (h : q = (n : ℚ) + 1/2) (he : 2 ∣ n) :
    rhe q = n := by
  have hf : ⌊q⌋ = n := Int.floor_eq_iff.mpr ⟨by rw [h]; linarith, by rw [h]; linarith⟩
  unfold rhe
  rw [hf, if_neg (by rw [h]; linarith), if_neg (by rw [h]; linarith),
    if_pos he]

lemma rhe_eq_half_odd {q : ℚ} {n : ℤ} (h : q = (n : ℚ) + 1/2) (ho : ¬ 2 ∣ n) :
    rhe q = n + 1 := by
  have hf : ⌊q⌋ = n := Int.floor_eq_iff.mpr ⟨by rw [h]; linarith, by rw [h]; linarith⟩
  unfold rhe
  rw [hf, if_neg (by rw [h]; linarith), if_neg (by rw [h]; linarith),
    if_neg ho]

lemma rhe_ge (q : ℚ) : q - 1/2 ≤ (rhe q : ℚ) := by
  have h0 : ((⌊q⌋ : ℤ) : ℚ) ≤ q := Int.floor_le q
  have h1 : q < (⌊q⌋ : ℚ) + 1 := Int.lt_floor_add_one q
  unfold rhe
  split_ifs <;> push_cast <;> linarith

lemma rhe_le (q : ℚ) : (rhe q : ℚ) ≤ q + 1/2 := by
  have h0 : ((⌊q⌋ : ℤ) : ℚ) ≤ q := Int.floor_le q
  have h1 : q < (⌊q⌋ : ℚ) + 1 := Int.lt_floor_add_one q
  unfold rhe
  split_ifs <;> push_cast <;> linarith

lemma floor_le_rhe (q : ℚ) : ⌊q⌋ ≤ rhe q := by
  unfold rhe
  split_ifs <;> omega

lemma rhe_le_floor_add_one (q : ℚ) : rhe q ≤ ⌊q⌋ + 1 := by
  unfold rhe
  split_ifs <;> omega

lemma rhe_mono {q q' : ℚ} (h : q ≤ q') : rhe q ≤ rhe q' := by
  have hf : ⌊q⌋ ≤ ⌊q'⌋ := Int.floor_mono h
  rcases eq_or_lt_of_le hf with heq | hlt
  · have hq : (⌊q⌋ : ℚ) ≤ q := Int.floor_le q
    unfold rhe
    rw [← heq]
    split_ifs <;> try omega
    all_goals (exfalso; rw [← heq] at *; linarith)
  · have h1 : rhe q ≤ ⌊q⌋ + 1 := rhe_le_floor_add_one q
    have h2 : ⌊q'⌋ ≤ rhe q' := floor_le_rhe q'
    omega

lemma intLog2_eq {q : ℚ} {e : ℤ} (h0 : 0 < q) (h1 : (2:ℚ) ^ e ≤ q)
    (h2 : q < (2:ℚ) ^ (e + 1)) : Int.log 2 q = e := by
  have ha : e ≤ Int.log 2 q := by
    refine (Int.zpow_le_iff_le_log one_lt_two h0).mp ?_
    exact_mod_cast h1
  have hb : Int.log 2 q < e + 1 := by
    refine (Int.lt_zpow_iff_log_lt one_lt_two h0).mp ?_
    exact_mod_cast h2
  omega

lemma log_bracket {q : ℚ} (h0 : 0 < q) :
    (2:ℚ) ^ Int.log 2 q ≤ q ∧ q < (2:ℚ) ^ (Int.log 2 q + 1) := by
  constructor
  · exact_mod_cast Int.zpow_log_le_self one_lt_two h0
  · exact_mod_cast Int.lt_zpow_succ_log_self one_lt_two q

lemma scaled_bracket {q : ℚ} (h0 : 0 < q) :
    (2:ℚ) ^ (52:ℤ) ≤ q * 2 ^ ((52:ℤ) - Int.log 2 q) ∧
      q * 2 ^ ((52:ℤ) - Int.log 2 q) < (2:ℚ) ^ (53:ℤ) := by
  obtain ⟨hl, hr⟩ := log_bracket h0
  have hp : (0:ℚ) < 2 ^ ((52:ℤ) - Int.log 2 q) := by positivity
  constructor
  · have := mul_le_mul_of_nonneg_right hl (le_of_lt hp)
    calc (2:ℚ) ^ (52:ℤ)
        = 2 ^ Int.log 2 q * 2 ^ ((52:ℤ) - Int.log 2 q) := by
          rw [← zpow_add₀ (by norm_num : (2:ℚ) ≠ 0)]
          ring_nf
      _ ≤ q * 2 ^ ((52:ℤ) - Int.log 2 q) := this
  · have := mul_lt_mul_of_pos_right hr hp
    calc q * 2 ^ ((52:ℤ) - Int.log 2 q)
        < 2 ^ (Int.log 2 q + 1) * 2 ^ ((52:ℤ) - Int.log 2 q) := this
      _ = (2:ℚ) ^ (53:ℤ) := by
          rw [← zpow_add₀ (by norm_num : (2:ℚ) ≠ 0)]
          ring_nf

lemma roundDouble_of_pos {q : ℚ} (h0 : 0 < q) :
    roundDouble q =
      (rhe (q * 2 ^ ((52 : ℤ) - Int.log 2 q)) : ℚ) * 2 ^ (Int.log 2 q - 52) := by
  unfold roundDouble
  rw [if_pos h0]

lemma roundDouble_zero : roundDouble 0 = 0 := by
  unfold roundDouble
  norm_num

lemma roundDouble_eq_of {q : ℚ} {e m : ℤ} (h0 : 0 < q) (h1 : (2:ℚ) ^ e ≤ q)
    (h2 : q < (2:ℚ) ^ (e + 1)) (h3 : rhe (q * 2 ^ ((52:ℤ) - e)) = m) :
    roundDouble q = (m : ℚ) * 2 ^ (e - 52) := by
  have hl := intLog2_eq h0 h1 h2
  rw [roundDouble_of_pos h0, hl, h3]

lemma rhe_scaled_lb {q : ℚ} (h0 : 0 < q) :
    (2:ℤ) ^ (52:ℕ) ≤ rhe (q * 2 ^ ((52:ℤ) - Int.log 2 q)) := by
  obtain ⟨hl, _⟩ := scaled_bracket h0
  have h := rhe_ge (q * 2 ^ ((52:ℤ) - Int.log 2 q))
  have h2 : ((2:ℤ)^(52:ℕ) : ℚ) - 1 < (rhe (q * 2 ^ ((52:ℤ) - Int.log 2 q)) : ℚ) := by
    push_cast
    have : ((2:ℚ) ^ (52:ℤ)) = 2 ^ (52:ℕ) := by norm_num
    nlinarith [this]
  have h3 : (2:ℤ)^(52:ℕ) - 1 < rhe (q * 2 ^ ((52:ℤ) - Int.log 2 q)) := by
    exact_mod_cast h2
  omega

lemma rhe_scaled_ub {q : ℚ} (h0 : 0 < q) :
    rhe (q * 2 ^ ((52:ℤ) - Int.log 2 q)) ≤ (2:ℤ) ^ (53:ℕ) := by
  obtain ⟨_, hr⟩ := scaled_bracket h0
  have h := rhe_le (q * 2 ^ ((52:ℤ) - Int.log 2 q))
  have h2 : (rhe (q * 2 ^ ((52:ℤ) - Int.log 2 q)) : ℚ) < ((2:ℤ)^(53:ℕ) : ℚ) + 1 := by
    push_cast
    have : ((2:ℚ) ^ (53:ℤ)) = 2 ^ (53:ℕ) := by norm_num
    nlinarith [this]
  have h3 : rhe (q * 2 ^ ((52:ℤ) - Int.log 2 q)) < (2:ℤ)^(53:ℕ) + 1 := by
    exact_mod_cast h2
  omega

lemma roundDouble_nonneg {q : ℚ} (h : 0 ≤ q) : 0 ≤ roundDouble q := by
  rcases eq_or_lt_of_le h with h0 | h0
  · rw [← h0, roundDouble_zero]
  · rw [roundDouble_of_pos h0]
    have hm := rhe_scaled_lb h0
    have hm' : (0:ℚ) ≤ (rhe (q * 2 ^ ((52:ℤ) - Int.log 2 q)) : ℚ) := by
      have h52 : (0:ℤ) < 2 ^ (52:ℕ) := by positivity
      have hz : (0:ℤ) ≤ rhe (q * 2 ^ ((52:ℤ) - Int.log 2 q)) := by omega
      exact_mod_cast hz
    positivity

lemma pow_le_roundDouble {q : ℚ} (h0 : 0 < q) :
    (2:ℚ) ^ Int.log 2 q ≤ roundDouble q := by
  rw [roundDouble_of_pos h0]
  have hm := rhe_scaled_lb h0
  have hm' : ((2:ℤ)^(52:ℕ) : ℚ) ≤ (rhe (q * 2 ^ ((52:ℤ) - Int.log 2 q)) : ℚ) := by
    exact_mod_cast hm
  have hp : (0:ℚ) < 2 ^ (Int.log 2 q - 52) := by positivity
  calc (2:ℚ) ^ Int.log 2 q
      = ((2:ℤ)^(52:ℕ) : ℚ) * 2 ^ (Int.log 2 q - 52) := by
        push_cast
        rw [show ((2:ℚ)^(52:ℕ)) = (2:ℚ)^(52:ℤ) by norm_num,
          ← zpow_add₀ (by norm_num : (2:ℚ) ≠ 0)]
        ring_nf
    _ ≤ (rhe (q * 2 ^ ((52:ℤ) - Int.log 2 q)) : ℚ) * 2 ^ (Int.log 2 q - 52) :=
        mul_le_mul_of_nonneg_right hm' (le_of_lt hp)

lemma roundDouble_le_pow {q : ℚ} (h0 : 0 < q) :
    roundDouble q ≤ (2:ℚ) ^ (Int.log 2 q + 1) := by
  rw [roundDouble_of_pos h0]
  have hm := rhe_scaled_ub h0
  have hm' : (rhe (q * 2 ^ ((52:ℤ) - Int.log 2 q)) : ℚ) ≤ ((2:ℤ)^(53:ℕ) : ℚ) := by
    exact_mod_cast hm
  have hp : (0:ℚ) < 2 ^ (Int.log 2 q - 52) := by positivity
  calc (rhe (q * 2 ^ ((52:ℤ) - Int.log 2 q)) : ℚ) * 2 ^ (Int.log 2 q - 52)
      ≤ ((2:ℤ)^(53:ℕ) : ℚ) * 2 ^ (Int.log 2 q - 52) :=
        mul_le_mul_of_nonneg_right hm' (le_of_lt hp)
    _ = (2:ℚ) ^ (Int.log 2 q + 1) := by
        push_cast
        rw [show ((2:ℚ)^(53:ℕ)) = (2:ℚ)^(53:ℤ) by norm_num,
          ← zpow_add₀ (by norm_num : (2:ℚ) ≠ 0)]
        ring_nf

lemma roundDouble_mono {q q' : ℚ} (h0 : 0 ≤ q) (h : q ≤ q') :
    roundDouble q ≤ roundDouble q' := by
  rcases eq_or_lt_of_le h0 with hq0 | hq0
  · rw [← hq0, roundDouble_zero]
    exact roundDouble_nonneg (le_trans h0 h)
  · have hq'0 : 0 < q' := lt_of_lt_of_le hq0 h
    have hl : Int.log 2 q ≤ Int.log 2 q' := Int.log_mono_right hq0 h
    rcases eq_or_lt_of_le hl with he | he
    · rw [roundDouble_of_pos hq0, roundDouble_of_pos hq'0, ← he]
      have hr : rhe (q * 2 ^ ((52:ℤ) - Int.log 2 q)) ≤
          rhe (q' * 2 ^ ((52:ℤ) - Int.log 2 q)) := by
        apply rhe_mono
        apply mul_le_mul_of_nonneg_right h
        positivity
      have hr' : (rhe (q * 2 ^ ((52:ℤ) - Int.log 2 q)) : ℚ) ≤
          (rhe (q' * 2 ^ ((52:ℤ) - Int.log 2 q)) : ℚ) := by exact_mod_cast hr
      apply mul_le_mul_of_nonneg_right hr'
      positivity
    · calc roundDouble q ≤ (2:ℚ) ^ (Int.log 2 q + 1) := roundDouble_le_pow hq0
        _ ≤ (2:ℚ) ^ Int.log 2 q' := by
            apply zpow_le_zpow_right₀ one_le_two
            omega
        _ ≤ roundDouble q' := pow_le_roundDouble hq'0

lemma roundDouble_rep {m e : ℤ} (h1 : (2:ℤ) ^ (52:ℕ) ≤ m) (h2 : m < (2:ℤ) ^ (53:ℕ)) :
    roundDouble ((m : ℚ) * 2 ^ (e - 52)) = (m : ℚ) * 2 ^ (e - 52) := by
  have hm0 : (0:ℤ) < m := by
    have : (0:ℤ) < 2 ^ (52:ℕ) := by positivity
    omega
  have hm0' : (0:ℚ) < (m:ℚ) := by exact_mod_cast hm0
  have hp : (0:ℚ) < (2:ℚ) ^ (e - 52) := by positivity
  have hv : (0:ℚ) < (m : ℚ) * 2 ^ (e - 52) := by positivity
  have hlb : (2:ℚ) ^ e ≤ (m : ℚ) * 2 ^ (e - 52) := by
    have h1' : ((2:ℤ)^(52:ℕ) : ℚ) ≤ (m:ℚ) := by exact_mod_cast h1
    calc (2:ℚ) ^ e = ((2:ℤ)^(52:ℕ) : ℚ) * 2 ^ (e - 52) := by
          push_cast
          rw [show ((2:ℚ)^(52:ℕ)) = (2:ℚ)^(52:ℤ) by norm_num,
            ← zpow_add₀ (by norm_num : (2:ℚ) ≠ 0)]
          ring_nf
      _ ≤ (m : ℚ) * 2 ^ (e - 52) := mul_le_mul_of_nonneg_right h1' (le_of_lt hp)
  have hub : (m : ℚ) * 2 ^ (e - 52) < (2:ℚ) ^ (e + 1) := by
    have h2' : (m:ℚ) < ((2:ℤ)^(53:ℕ) : ℚ) := by exact_mod_cast h2
    calc (m : ℚ) * 2 ^ (e - 52) < ((2:ℤ)^(53:ℕ) : ℚ) * 2 ^ (e - 52) :=
          mul_lt_mul_of_pos_right h2' hp
      _ = (2:ℚ) ^ (e + 1) := by
          push_cast
          rw [show ((2:ℚ)^(53:ℕ)) = (2:ℚ)^(53:ℤ) by norm_num,
            ← zpow_add₀ (by norm_num : (2:ℚ) ≠ 0)]
          ring_nf
  have hscale : (m : ℚ) * 2 ^ (e - 52) * 2 ^ ((52:ℤ) - e) = (m : ℚ) := by
    rw [mul_assoc, ← zpow_add₀ (by norm_num : (2:ℚ) ≠ 0)]
    norm_num
  have h3 : rhe ((m : ℚ) * 2 ^ (e - 52) * 2 ^ ((52:ℤ) - e)) = m := by
    rw [hscale]
    exact rhe_intCast m
  exact roundDouble_eq_of hv hlb hub h3

lemma roundDouble_two_pow (e : ℤ) : roundDouble ((2:ℚ) ^ e) = (2:ℚ) ^ e := by
  have hh : ((((2:ℤ) ^ (52:ℕ) : ℤ)) : ℚ) * (2:ℚ) ^ (e - 52) = (2:ℚ) ^ e := by
    push_cast
    rw [show (4503599627370496:ℚ) = (2:ℚ)^(52:ℤ) by norm_num,
      ← zpow_add₀ (by norm_num : (2:ℚ) ≠ 0)]
    ring_nf
  have h := @roundDouble_rep ((2:ℤ) ^ (52:ℕ)) e (le_refl _) (by norm_num)
  rw [hh] at h
  exact h

lemma roundDouble_idem {q : ℚ} (h0 : 0 ≤ q) :
    roundDouble (roundDouble q) = roundDouble q := by
  rcases eq_or_lt_of_le h0 with hq0 | hq0
  · rw [← hq0, roundDouble_zero, roundDouble_zero]
  · rw [roundDouble_of_pos hq0]
    have hlb := rhe_scaled_lb hq0
    have hub := rhe_scaled_ub hq0
    rcases eq_or_lt_of_le hub with heq | hlt
    · rw [heq]
      have h : ((((2:ℤ) ^ (53:ℕ) : ℤ)) : ℚ) * (2:ℚ) ^ (Int.log 2 q - 52) =
          (2:ℚ) ^ (Int.log 2 q + 1) := by
        push_cast
        rw [show (9007199254740992:ℚ) = (2:ℚ)^(53:ℤ) by norm_num,
          ← zpow_add₀ (by norm_num : (2:ℚ) ≠ 0)]
        ring_nf
      rw [h, roundDouble_two_pow]
    · exact roundDouble_rep hlb hlt

/-- Binary64 addition: exact rational sum followed by IEEE rounding. -/
def fadd (a b : ℚ) : ℚ := roundDouble (a + b)

/-- Python `int * float`: the int is converted to binary64 (rounding if
needed), then multiplied in binary64. -/
def fmul (n : ℕ) (b : ℚ) : ℚ := roundDouble ((roundDouble n) * b)

/-- The rational is exactly representable as a binary64 value. -/
def FRep (a : ℚ) : Prop := roundDouble a = a

lemma FRep_zero : FRep 0 := roundDouble_zero

lemma FRep_roundDouble {q : ℚ} (h : 0 ≤ q) : FRep (roundDouble q) :=
  roundDouble_idem h

lemma fadd_nonneg {a b : ℚ} (ha : 0 ≤ a) (hb : 0 ≤ b) : 0 ≤ fadd a b :=
  roundDouble_nonneg (by linarith)

lemma fadd_rep {a b : ℚ} (ha : 0 ≤ a) (hb : 0 ≤ b) : FRep (fadd a b) :=
  FRep_roundDouble (by linarith)

lemma fadd_mono_left {a a' b : ℚ} (ha : 0 ≤ a) (hb : 0 ≤ b) (h : a ≤ a') :
    fadd a b ≤ fadd a' b :=
  roundDouble_mono (by linarith) (by linarith)

lemma fadd_mono_right {a b b' : ℚ} (ha : 0 ≤ a) (hb : 0 ≤ b) (h : b ≤ b') :
    fadd a b ≤ fadd a b' :=
  roundDouble_mono (by linarith) (by linarith)

lemma le_fadd_self {a b : ℚ} (ha : 0 ≤ a) (hrep : FRep a) (hb : 0 ≤ b) :
    a ≤ fadd a b := by
  have h := roundDouble_mono ha (by linarith : a ≤ a + b)
  rwa [hrep] at h

lemma fadd_zero_left (b : ℚ) : fadd 0 b = roundDouble b := by
  unfold fadd
  rw [zero_add]

lemma fmul_nonneg {n : ℕ} {b : ℚ} (hb : 0 ≤ b) : 0 ≤ fmul n b := by
  apply roundDouble_nonneg
  have : (0:ℚ) ≤ roundDouble n := roundDouble_nonneg (by positivity)
  positivity

lemma fmul_mono {n m : ℕ} {b : ℚ} (hb : 0 ≤ b) (h : n ≤ m) :
    fmul n b ≤ fmul m b := by
  have h1 : roundDouble (n : ℚ) ≤ roundDouble (m : ℚ) :=
    roundDouble_mono (by positivity) (by exact_mod_cast h)
  have h2 : (0:ℚ) ≤ roundDouble (n : ℚ) := roundDouble_nonneg (by positivity)
  exact roundDouble_mono (by positivity) (mul_le_mul_of_nonneg_right h1 hb)

lemma foldl_fadd_nonneg {l : List ℚ} (hl : ∀ d ∈ l, 0 ≤ d) {a : ℚ} (ha : 0 ≤ a) :
    0 ≤ List.foldl fadd a l := by
  induction l generalizing a with
  | nil => exact ha
  | cons d t ih =>
      simp only [List.foldl_cons]
      exact ih (fun x hx => hl x (List.mem_cons_of_mem d hx))
        (fadd_nonneg ha (hl d (List.mem_cons_self d t)))

lemma foldl_fadd_rep {l : List ℚ} (hl : ∀ d ∈ l, 0 ≤ d) {a : ℚ} (ha : 0 ≤ a)
    (hrep : FRep a) : FRep (List.foldl fadd a l) := by
  induction l generalizing a with
  | nil => exact hrep
  | cons d t ih =>
      simp only [List.foldl_cons]
      exact ih (fun x hx => hl x (List.mem_cons_of_mem d hx))
        (fadd_nonneg ha (hl d (List.mem_cons_self d t)))
        (fadd_rep ha (hl d (List.mem_cons_self d t)))

lemma foldl_fadd_mono_acc {l : List ℚ} (hl : ∀ d ∈ l, 0 ≤ d) {a a' : ℚ}
    (ha : 0 ≤ a) (h : a ≤ a') : List.foldl fadd a l ≤ List.foldl fadd a' l := by
  induction l generalizing a a' with
  | nil => exact h
  | cons d t ih =>
      simp only [List.foldl_cons]
      exact ih (fun x hx => hl x (List.mem_cons_of_mem d hx))
        (fadd_nonneg ha (hl d (List.mem_cons_self d t)))
        (fadd_mono_left ha (hl d (List.mem_cons_self d t)) h)

lemma foldl_fadd_le_insert {A B : List ℚ} {d : ℚ} (hd : 0 ≤ d)
    (hA : ∀ x ∈ A, 0 ≤ x) (hB : ∀ x ∈ B, 0 ≤ x) :
    List.foldl fadd 0 (A ++ B) ≤ List.foldl fadd 0 (A ++ d :: B) := by
  rw [List.foldl_append, List.foldl_append, List.foldl_cons]
  have ha : (0:ℚ) ≤ List.foldl fadd 0 A := foldl_fadd_nonneg hA (le_refl 0)
  have harep : FRep (List.foldl fadd 0 A) := foldl_fadd_rep hA (le_refl 0) FRep_zero
  exact foldl_fadd_mono_acc hB ha (le_fadd_self ha harep hd)

lemma foldl_fadd_elem_mono {A B : List ℚ} {d d' : ℚ} (hd : 0 ≤ d) (h : d ≤ d')
    (hA : ∀ x ∈ A, 0 ≤ x) (hB : ∀ x ∈ B, 0 ≤ x) :
    List.foldl fadd 0 (A ++ d :: B) ≤ List.foldl fadd 0 (A ++ d' :: B) := by
  rw [List.foldl_append, List.foldl_append, List.foldl_cons, List.foldl_cons]
  have ha : (0:ℚ) ≤ List.foldl fadd 0 A := foldl_fadd_nonneg hA (le_refl 0)
  exact foldl_fadd_mono_acc hB (fadd_nonneg ha hd) (fadd_mono_right ha hd h)

/-- The binary64 value written `0.1` in the source. -/
def c01 : ℚ := roundDouble (1/10)

/-- The binary64 value written `0.15` in the source. -/
def c015 : ℚ := roundDouble (3/20)

/-- The binary64 value written `0.2` in the source. -/
def c02 : ℚ := roundDouble (1/5)

/-- The binary64 value written `0.25` in the source. -/
def c025 : ℚ := roundDouble (1/4)

/-- The binary64 value written `0.3` in the source. -/
def c03 : ℚ := roundDouble (3/10)

/-- The binary64 value written `0.5` in the source. -/
def c05 : ℚ := roundDouble (1/2)

/-- The binary64 value written `0.6` in the source. -/
def c06 : ℚ := roundDouble (3/5)

lemma c01_eq : c01 = 7205759403792794 / 2 ^ (56:ℕ) := by
  unfold c01
  have h3 : rhe ((1/10 : ℚ) * 2 ^ ((52:ℤ) - (-4))) = 7205759403792794 := by
    rw [@rhe_eq_high _ 7205759403792793 (by norm_num) (by norm_num)]
    norm_num
  rw [@roundDouble_eq_of (1/10) (-4) 7205759403792794 (by norm_num) (by norm_num)
    (by norm_num) h3]
  norm_num

lemma c015_eq : c015 = 5404319552844595 / 2 ^ (55:ℕ) := by
  unfold c015
  have h3 : rhe ((3/20 : ℚ) * 2 ^ ((52:ℤ) - (-3))) = 5404319552844595 := by
    rw [@rhe_eq_low _ 5404319552844595 (by norm_num) (by norm_num)]
  rw [@roundDouble_eq_of (3/20) (-3) 5404319552844595 (by norm_num) (by norm_num)
    (by norm_num) h3]
  norm_num

lemma c02_eq : c02 = 7205759403792794 / 2 ^ (55:ℕ) := by
  unfold c02
  have h3 : rhe ((1/5 : ℚ) * 2 ^ ((52:ℤ) - (-3))) = 7205759403792794 := by
    rw [@rhe_eq_high _ 7205759403792793 (by norm_num) (by norm_num)]
    norm_num
  rw [@roundDouble_eq_of (1/5) (-3) 7205759403792794 (by norm_num) (by norm_num)
    (by norm_num) h3]
  norm_num

lemma c025_eq : c025 = 1 / 4 := by
  unfold c025
  rw [show (1/4 : ℚ) = (2:ℚ) ^ (-2 : ℤ) by norm_num, roundDouble_two_pow]

lemma c03_eq : c03 = 5404319552844595 / 2 ^ (54:ℕ) := by
  unfold c03
  have h3 : rhe ((3/10 : ℚ) * 2 ^ ((52:ℤ) - (-2))) = 5404319552844595 := by
    rw [@rhe_eq_low _ 5404319552844595 (by norm_num) (by norm_num)]
  rw [@roundDouble_eq_of (3/10) (-2) 5404319552844595 (by norm_num) (by norm_num)
    (by norm_num) h3]
  norm_num

lemma c05_eq : c05 = 1 / 2 := by
  unfold c05
  rw [show (1/2 : ℚ) = (2:ℚ) ^ (-1 : ℤ) by norm_num, roundDouble_two_pow]

lemma c06_eq : c06 = 5404319552844595 / 2 ^ (53:ℕ) := by
  unfold c06
  have h3 : rhe ((3/5 : ℚ) * 2 ^ ((52:ℤ) - (-1))) = 5404319552844595 := by
    rw [@rhe_eq_low _ 5404319552844595 (by norm_num) (by norm_num)]
  rw [@roundDouble_eq_of (3/5) (-1) 5404319552844595 (by norm_num) (by norm_num)
    (by norm_num) h3]
  norm_num

lemma c01_nonneg : 0 ≤ c01 := roundDouble_nonneg (by norm_num)

lemma c015_nonneg : 0 ≤ c015 := roundDouble_nonneg (by norm_num)

lemma c02_nonneg : 0 ≤ c02 := roundDouble_nonneg (by norm_num)

lemma c025_nonneg : 0 ≤ c025 := roundDouble_nonneg (by norm_num)

lemma c03_nonneg : 0 ≤ c03 := roundDouble_nonneg (by norm_num)

lemma roundDouble_three : roundDouble 3 = 3 := by
  have h3 : rhe ((3:ℚ) * 2 ^ ((52:ℤ) - 1)) = 6755399441055744 := by
    rw [@rhe_eq_low _ 6755399441055744 (by norm_num) (by norm_num)]
  rw [@roundDouble_eq_of 3 1 6755399441055744 (by norm_num) (by norm_num)
    (by norm_num) h3]
  norm_num

lemma roundDouble_one : roundDouble 1 = 1 := by
  rw [show (1:ℚ) = (2:ℚ) ^ (0 : ℤ) by norm_num, roundDouble_two_pow]

lemma fadd_zero_c01 : fadd 0 c01 = c01 := by
  rw [fadd_zero_left]
  exact roundDouble_idem (by norm_num)

lemma fmul_three_c01 : fmul 3 c01 = 5404319552844596 / 2 ^ (54:ℕ) := by
  unfold fmul
  rw [show ((3:ℕ):ℚ) = 3 by norm_num, roundDouble_three, c01_eq]
  have h3 : rhe (((3:ℚ) * (7205759403792794 / 2 ^ (56:ℕ))) * 2 ^ ((52:ℤ) - (-2))) =
      5404319552844596 := by
    rw [@rhe_eq_half_odd _ 5404319552844595 (by norm_num) (by decide)]
    norm_num
  rw [@roundDouble_eq_of _ (-2) 5404319552844596 (by norm_num) (by norm_num)
    (by norm_num) h3]
  norm_num

lemma fadd_c01_kw3 :
    fadd c01 (5404319552844596 / 2 ^ (54:ℕ)) = 7205759403792794 / 2 ^ (54:ℕ) := by
  unfold fadd
  rw [c01_eq]
  have h3 : rhe ((7205759403792794 / 2 ^ (56:ℕ) + 5404319552844596 / 2 ^ (54:ℕ) : ℚ) *
      2 ^ ((52:ℤ) - (-2))) = 7205759403792794 := by
    rw [@rhe_eq_half_even _ 7205759403792794 (by norm_num) (by decide)]
  rw [@roundDouble_eq_of _ (-2) 7205759403792794 (by norm_num) (by norm_num)
    (by norm_num) h3]
  norm_num

lemma fadd_04_c02 :
    fadd (7205759403792794 / 2 ^ (54:ℕ)) c02 = 5404319552844596 / 2 ^ (53:ℕ) := by
  unfold fadd
  rw [c02_eq]
  have h3 : rhe ((7205759403792794 / 2 ^ (54:ℕ) + 7205759403792794 / 2 ^ (55:ℕ) : ℚ) *
      2 ^ ((52:ℤ) - (-1))) = 5404319552844596 := by
    rw [@rhe_eq_half_odd _ 5404319552844595 (by norm_num) (by decide)]
    norm_num
  rw [@roundDouble_eq_of _ (-1) 5404319552844596 (by norm_num) (by norm_num)
    (by norm_num) h3]
  norm_num

lemma fadd_06_c015 :
    fadd (5404319552844596 / 2 ^ (53:ℕ)) c015 = 6755399441055745 / 2 ^ (53:ℕ) := by
  unfold fadd
  rw [c015_eq]
  have h3 : rhe ((5404319552844596 / 2 ^ (53:ℕ) + 5404319552844595 / 2 ^ (55:ℕ) : ℚ) *
      2 ^ ((52:ℤ) - (-1))) = 6755399441055745 := by
    rw [@rhe_eq_high _ 6755399441055744 (by norm_num) (by norm_num)]
    norm_num
  rw [@roundDouble_eq_of _ (-1) 6755399441055745 (by norm_num) (by norm_num)
    (by norm_num) h3]
  norm_num

/-- Python `round(x, 2)` on a binary64 value: correct decimal rounding
(ties to even) of the exact value to 2 fractional digits, then conversion
back to the nearest binary64. -/
def pyRound2 (q : ℚ) : ℚ := roundDouble ((rhe (q * 100) : ℚ) / 100)

lemma rhe_zero : rhe 0 = 0 := by
  have h := rhe_intCast 0
  simpa using h

lemma pyRound2_zero : pyRound2 0 = 0 := by
  unfold pyRound2
  rw [zero_mul, rhe_zero]
  simpa using roundDouble_zero

lemma pyRound2_mem_unit {q : ℚ} (h0 : 0 ≤ q) (h1 : q ≤ 1) :
    0 ≤ pyRound2 q ∧ pyRound2 q ≤ 1 := by
  unfold pyRound2
  have hl : (0:ℤ) ≤ rhe (q * 100) := by
    have := rhe_mono (by push_cast; exact mul_nonneg h0 (by norm_num) : (((0:ℤ):ℚ)) ≤ q * 100)
    rwa [rhe_intCast] at this
  have hr : rhe (q * 100) ≤ (100:ℤ) := by
    have := rhe_mono (by push_cast; linarith : q * 100 ≤ (((100:ℤ):ℚ)))
    rwa [rhe_intCast] at this
  have hl' : (0:ℚ) ≤ (rhe (q * 100) : ℚ) / 100 := by
    have : (0:ℚ) ≤ (rhe (q * 100) : ℚ) := by exact_mod_cast hl
    linarith
  have hr' : (rhe (q * 100) : ℚ) / 100 ≤ 1 := by
    have : (rhe (q * 100) : ℚ) ≤ 100 := by exact_mod_cast hr
    linarith
  constructor
  · exact roundDouble_nonneg hl'
  · have := roundDouble_mono hl' hr'
    rwa [roundDouble_one] at this

lemma s304_eq : roundDouble (38/125) = 5476377146882523 / 2 ^ (54:ℕ) := by
  have h3 : rhe ((38/125 : ℚ) * 2 ^ ((52:ℤ) - (-2))) = 5476377146882523 := by
    rw [@rhe_eq_low _ 5476377146882523 (by norm_num) (by norm_num)]
  rw [@roundDouble_eq_of _ (-2) 5476377146882523 (by norm_num) (by norm_num)
    (by norm_num) h3]
  norm_num

lemma pyRound2_s304 : pyRound2 (5476377146882523 / 2 ^ (54:ℕ)) = c03 := by
  unfold pyRound2
  have hrhe : rhe ((5476377146882523 / 2 ^ (54:ℕ) : ℚ) * 100) = 30 := by
    rw [@rhe_eq_low _ 30 (by norm_num) (by norm_num)]
  rw [hrhe, show (((30:ℤ):ℚ)) / 100 = 3/10 by norm_num]
  rfl

/-- Python `str.startswith`: `leadsWith p s` holds when `s` starts with `p`. -/
def leadsWith : List Char → List Char → Bool
  | [], _ => true
  | _ :: _, [] => false
  | p :: ps, c :: cs => p == c && leadsWith ps cs

/-- Python substring containment `pat in s`. -/
def hasSub (pat : List Char) : List Char → Bool
  | [] => pat.isEmpty
  | c :: rest => leadsWith pat (c :: rest) || hasSub pat rest

/-- Python `str.split(sep)` with a one-character separator: splits on every
occurrence and keeps empty pieces. -/
def pySplit (sep : Char) : List Char → List (List Char)
  | [] => [[]]
  | c :: rest =>
    match pySplit sep rest with
    | [] => [[]]
    | h :: t => if c == sep then [] :: h :: t else (c :: h) :: t

/-- Python `str.isdigit` (ASCII digits): non-empty and all digits. -/
def pyIsdigit (s : List Char) : Bool :=
  !s.isEmpty && s.all Char.isDigit

/-- Shannon entropy over the character frequency distribution, the
source's `calculate_entropy`.  Python computes it with `math.log2` floats;
it is modelled over the reals.  The `p > 0` guard of the source is
vacuous: every character of `set(url)` has positive count. -/
noncomputable def calculate_entropy (s : List Char) : ℝ :=
  if s = [] then 0
  else -(∑ c in s.toFinset,
    ((s.count c : ℝ) / (s.length : ℝ)) * Real.logb 2 ((s.count c : ℝ) / (s.length : ℝ)))

/-- The feature vector produced by `extract_features`. -/
structure FeatureVector where
  url_length : ℕ
  dot_count : ℕ
  has_ip : ℕ
  has_https : ℕ
  suspicious_keywords : ℕ
  tld_risk_score : ℚ
  subdomain_count : ℕ
  entropy : ℝ

/-- The fixed keyword list of `extract_features` (19 entries). -/
def suspicious_keywords_list : List (List Char) :=
  ["encrypt".data, "decrypt".data, "secure".data, "update".data, "verify".data,
   "account".data, "login".data, "free".data, "download".data, "wallet".data,
   "crypto".data, "bitcoin".data, "password".data, "banking".data, "invoice".data,
   "payment".data, "support".data, "confirm".data, "unlock".data]

/-- The fixed high-risk TLD list of `extract_features`. -/
def suspicious_tlds : List (List Char) :=
  ["ru".data, "cn".data, "tk".data, "xyz".data, "top".data, "pw".data, "cc".data,
   "ws".data, "info".data, "work".data, "click".data, "link".data, "loan".data,
   "date".data, "racing".data, "gq".data, "ml".data, "ga".data, "cf".data]

/-- Modelled from the spec: the engine calls the external `tldextract`
library (not part of this repository) for "public-suffix-list-aware
parsing" into subdomain / registrable domain / public suffix.  The model's
known public-suffix set: the engine's high-risk TLDs plus common TLDs
(single-label suffixes only). -/
def pslSuffixes : List (List Char) :=
  suspicious_tlds ++ ["com".data, "org".data, "net".data, "edu".data, "gov".data,
    "io".data, "co".data, "uk".data, "de".data]

/-- Modelled from the spec: part of the `tldextract` model; the characters
after the first `scheme://` marker, if any. -/
def afterScheme : List Char → Option (List Char)
  | [] => none
  | c :: rest =>
    if leadsWith "://".data (c :: rest) then some (rest.drop 2)
    else afterScheme rest

/-- Modelled from the spec: part of the `tldextract` model; the host is the
part after an optional `scheme://`, up to the first `/`. -/
def hostOf (url : List Char) : List Char :=
  (match afterScheme url with
   | some r => r
   | none => url).takeWhile (fun c => c != '/')

/-- Modelled from the spec: the `tldextract` split into
(subdomain, domain, suffix).  The rightmost host label is the suffix when
it is a known public suffix; the label left of the suffix is the domain;
the remaining labels, joined with `.`, are the subdomain. -/
def tldSplit (url : List Char) : List Char × List Char × List Char :=
  let labels := pySplit '.' (hostOf url)
  let lastL := labels.getLastD []
  let front := labels.dropLast
  if (lastL.map Char.toLower) ∈ pslSuffixes then
    (List.intercalate ['.'] front.dropLast, front.getLastD [], lastL)
  else
    (List.intercalate ['.'] front, lastL, [])

/-- Feature extraction, the source's `extract_features`. -/
noncomputable def extract_features (url : String) : FeatureVector :=
  let u := url.data
  let sds := tldSplit u
  let subdomain := sds.1
  let suffix := sds.2.2
  let has_ip : ℕ :=
    if '/' ∈ u then
      let ps := pySplit '/' u
      let host_part := if 2 < ps.length then ps.getD 2 [] else ps.getD 0 []
      let parts := host_part.filter (fun c => c != '.' && c != ':')
      if pyIsdigit parts = true ∧ 7 ≤ parts.length then 1 else 0
    else 0
  let has_https : ℕ := if leadsWith "https://".data u then 1 else 0
  let keyword_count := (suspicious_keywords_list.filter
    (fun kw => hasSub kw (u.map Char.toLower))).length
  let tld_risk_score : ℚ :=
    if (suffix.map Char.toLower) ∈ suspicious_tlds then 1 else 0
  let subdomain_count : ℕ := if subdomain ≠ [] then subdomain.count '.' + 1 else 0
  ⟨u.length, u.count '.', has_ip, has_https, keyword_count, tld_risk_score,
    subdomain_count, calculate_entropy u⟩

open scoped Classical in
/-- The scorer `predict_threat` in heuristic mode (`model is None`; the
repository ships no `url_threat_model.joblib`).  Sequentially accumulates
the rule deltas in binary64 arithmetic, clamps at 1.0 and reports fixed
confidence "Medium". -/
noncomputable def predict_threat (f : FeatureVector) : ℚ × String :=
  let s0 : ℚ := 0
  let s1 := if 80 < f.url_length then fadd s0 c015 else s0
  let s2 := if 4 < f.dot_count then fadd s1 c01 else s1
  let s3 := if f.has_ip ≠ 0 then fadd s2 c025 else s2
  let s4 := if f.has_https = 0 then fadd s3 c01 else s3
  let s5 := if 0 < f.suspicious_keywords then
    fadd s4 (fmul f.suspicious_keywords c01) else s4
  let s6 := if 0 < f.tld_risk_score then fadd s5 c02 else s5
  let s7 := if 3 < f.subdomain_count then fadd s6 c01 else s6
  let s8 := if (5:ℝ) < f.entropy then fadd s7 c015 else s7
  (min s8 1, "Medium")

open scoped Classical in
/-- The rule table of §4.2 as the list of fired score deltas, in rule
order. -/
noncomputable def ruleDeltas (f : FeatureVector) : List ℚ :=
  (if 80 < f.url_length then [c015] else []) ++
  (if 4 < f.dot_count then [c01] else []) ++
  (if f.has_ip ≠ 0 then [c025] else []) ++
  (if f.has_https = 0 then [c01] else []) ++
  (if 0 < f.suspicious_keywords then [fmul f.suspicious_keywords c01] else []) ++
  (if 0 < f.tld_risk_score then [c02] else []) ++
  (if 3 < f.subdomain_count then [c01] else []) ++
  (if (5:ℝ) < f.entropy then [c015] else [])

open scoped Classical in
/-- The indicator list built from raw feature thresholds in `analyze_url`
(lines 212-227 of the source). -/
noncomputable def baseIndicators (f : FeatureVector) : List String :=
  (if 80 < f.url_length then ["Unusually long URL"] else []) ++
  (if 4 < f.dot_count then ["Excessive subdomains/dots"] else []) ++
  (if f.has_ip ≠ 0 then ["IP address detected instead of domain"] else []) ++
  (if f.has_https = 0 then ["No HTTPS encryption"] else []) ++
  (if 0 < f.suspicious_keywords then
    ["Suspicious keywords detected (" ++ toString f.suspicious_keywords ++ " found)"]
   else []) ++
  (if 0 < f.tld_risk_score then ["High-risk TLD detected"] else []) ++
  (if 3 < f.subdomain_count then ["Excessive subdomain depth"] else []) ++
  (if (5:ℝ) < f.entropy then ["High URL entropy (obfuscation indicator)"] else [])

/-- Outcome of one HTTP request issued by a provider wrapper: an exception
(connection error, timeout, parse error) or a response with a status code
and a payload (the body's match list, empty when no matches). -/
inductive NetOutcome where
  | exc (msg : String)
  | resp (status : ℕ) (payload : List String)

/-- Return value of `get_google_safe_browsing`, one constructor per return
statement of the source. -/
inductive GsbResult where
  | noKey
  | ok (ms : List String)
  | err (msg : String)
  | clean

/-- Truthiness of `result.get("enabled")`. -/
def GsbResult.enabled : GsbResult → Bool
  | .ok _ => true
  | _ => false

/-- Truthiness of `result.get("matches")`: present and non-empty. -/
def GsbResult.hasMatches : GsbResult → Bool
  | .ok ms => !ms.isEmpty
  | _ => false

/-- The dict's "result" entry, when present. -/
def GsbResult.result : GsbResult → Option String
  | .noKey => some "API key not configured"
  | .clean => some "clean"
  | _ => none

/-- The blocklist-provider wrapper `get_google_safe_browsing`,
parameterised by the configured API key and the outcome of the network
call (which the source guards with `try`/`except` and a 5s timeout). -/
def get_google_safe_browsing (apiKey : String) (net : NetOutcome) : GsbResult :=
  if apiKey = "" then .noKey
  else
    match net with
    | .exc m => .err m
    | .resp status ms => if status = 200 then .ok ms else .clean

/-- Return value of `get_virustotal_analysis`, one constructor per return
statement of the source. -/
inductive VtResult where
  | noKey
  | ok (data : List String)
  | err (msg : String)
  | clean

/-- Truthiness of `result.get("enabled")`. -/
def VtResult.enabled : VtResult → Bool
  | .ok _ => true
  | _ => false

/-- The dict's "result" entry, when present. -/
def VtResult.result : VtResult → Option String
  | .noKey => some "API key not configured"
  | .clean => some "clean"
  | _ => none

/-- The reputation-provider wrapper `get_virustotal_analysis`,
parameterised by the configured API key and the outcome of the network
call (guarded by `try`/`except`, 10s timeout). -/
def get_virustotal_analysis (apiKey : String) (net : NetOutcome) : VtResult :=
  if apiKey = "" then .noKey
  else
    match net with
    | .exc m => .err m
    | .resp status d => if status = 200 then .ok d else .clean

/-- Signal fusion, lines 229-237 of `analyze_url`: a blocklist match adds
the binary64 value 0.3 (clamped at 1.0), appends its indicator and forces
confidence "High"; an enabled reputation lookup appends its indicator
only. -/
def fuse (ts : ℚ) (ind : List String) (conf : String) (gsb : GsbResult)
    (vt : VtResult) : ℚ × List String × String :=
  let afterGsb :=
    if gsb.enabled && gsb.hasMatches then
      (min (fadd ts c03) 1, ind ++ ["Flagged by Google Safe Browsing"], "High")
    else (ts, ind, conf)
  (afterGsb.1,
   (if vt.enabled then afterGsb.2.1 ++ ["Analyzed by VirusTotal"] else afterGsb.2.1),
   afterGsb.2.2)

/-- The three-way level decision of `analyze_url`, lines 239-250:
(threat level, recommendation, safe to visit) as a function of the
unrounded score. -/
def classifyScore (ts : ℚ) : String × String × Bool :=
  if ts ≤ c03 then
    ("Safe", "This URL appears to be safe. Exercise normal caution.", true)
  else if ts ≤ c06 then
    ("Suspicious",
     "This URL shows some suspicious characteristics. Proceed with caution.", false)
  else
    ("High Risk",
     "This URL shows multiple high-risk indicators. Do not visit this URL.", false)

/-- The verdict record returned by `analyze_url`. -/
structure Verdict where
  url : String
  threatScore : ℚ
  threatLevel : String
  confidence : String
  isMalicious : Bool
  indicators : List String
  recommendation : String
  actionRequired : Bool
  safeToVisit : Bool
  features : FeatureVector
  googleSafeBrowsing : GsbResult
  virusTotal : VtResult

/-- Verdict assembly, lines 239-268 of `analyze_url`: level classification
and flags from the unrounded score, indicator fallback when the list is
empty, and 2-decimal rounding of the reported score. -/
def finalize (url : String) (f : FeatureVector) (ts : ℚ) (conf : String)
    (ind : List String) (gsb : GsbResult) (vt : VtResult) : Verdict :=
  let cls := classifyScore ts
  let ind2 := if ind = [] then ["No specific threat indicators detected"] else ind
  ⟨url, pyRound2 ts, cls.1, conf, decide (c05 < ts), ind2, cls.2.1,
    decide (c03 < ts), cls.2.2, f, gsb, vt⟩

/-- The orchestrator `analyze_url` in heuristic mode (the repository ships
no `url_threat_model.joblib`, so `model is None` at runtime),
parameterised by the two provider API keys and the outcomes of the two
network calls. -/
noncomputable def analyze_url (gsbKey vtKey : String) (gsbNet vtNet : NetOutcome)
    (url : String) : Verdict :=
  let features := extract_features url
  let sc := predict_threat features
  let ind := baseIndicators features
  let gsb := get_google_safe_browsing gsbKey gsbNet
  let vt := get_virustotal_analysis vtKey vtNet
  let fused := fuse sc.1 ind sc.2 gsb vt
  finalize url features fused.1 fused.2.2 fused.2.1 gsb vt

lemma calculate_entropy_nil : calculate_entropy [] = 0 := by
  unfold calculate_entropy
  simp

lemma calculate_entropy_replicate (c : Char) {n : ℕ} (hn : 0 < n) :
    calculate_entropy (List.replicate n c) = 0 := by
  unfold calculate_entropy
  have hne : List.replicate n c ≠ [] := by
    simp [List.replicate_eq_nil_iff]
    omega
  rw [if_neg hne, List.toFinset_replicate_of_ne_zero (by omega : n ≠ 0),
    Finset.sum_singleton]
  have hc : (List.replicate n c).count c = n := by simp
  have hl : (List.replicate n c).length = n := List.length_replicate n c
  rw [hc, hl, div_self (by exact_mod_cast hn.ne' : ((n:ℝ)) ≠ 0), Real.logb_one]
  simp

lemma calculate_entropy_perm {s t : List Char} (h : s.Perm t) :
    calculate_entropy s = calculate_entropy t := by
  unfold calculate_entropy
  by_cases hs : s = []
  · subst hs
    have ht : t = [] := h.symm.eq_nil
    subst ht
    rfl
  · have ht : t ≠ [] := by
      intro hteq
      subst hteq
      exact hs h.eq_nil
    rw [if_neg hs, if_neg ht]
    have hfin : s.toFinset = t.toFinset := by
      apply Finset.ext
      intro a
      simp [List.mem_toFinset, h.mem_iff]
    have hlen : s.length = t.length := h.length_eq
    rw [hfin, hlen]
    apply congrArg
    apply Finset.sum_congr rfl
    intro c _
    rw [h.count_eq]

lemma calculate_entropy_le (s : List Char) :
    calculate_entropy s ≤ Real.logb 2 (s.length : ℝ) := by
  unfold calculate_entropy
  by_cases hs : s = []
  · subst hs
    simp [Real.logb]
  · rw [if_neg hs]
    have hlen : (0:ℝ) < (s.length : ℝ) := by
      have : 0 < s.length := List.length_pos.mpr hs
      exact_mod_cast this
    have hterm : ∀ c ∈ s.toFinset,
        -(((s.count c : ℝ) / (s.length : ℝ)) *
            Real.logb 2 ((s.count c : ℝ) / (s.length : ℝ)))
          ≤ ((s.count c : ℝ) / (s.length : ℝ)) * Real.logb 2 (s.length : ℝ) := by
      intro c hc
      have hcount : (0:ℝ) < (s.count c : ℝ) := by
        have : 0 < s.count c := List.count_pos_iff.mpr (List.mem_toFinset.mp hc)
        exact_mod_cast this
      have hcount1 : (1:ℝ) ≤ (s.count c : ℝ) := by
        have : 1 ≤ s.count c := List.count_pos_iff.mpr (List.mem_toFinset.mp hc)
        exact_mod_cast this
      have hp : (0:ℝ) < (s.count c : ℝ) / (s.length : ℝ) := div_pos hcount hlen
      have h1 : -(((s.count c : ℝ) / (s.length : ℝ)) *
          Real.logb 2 ((s.count c : ℝ) / (s.length : ℝ)))
          = ((s.count c : ℝ) / (s.length : ℝ)) *
            Real.logb 2 (((s.count c : ℝ) / (s.length : ℝ))⁻¹) := by
        rw [Real.logb_inv]
        ring
      rw [h1]
      apply mul_le_mul_of_nonneg_left _ (le_of_lt hp)
      rw [inv_div]
      apply Real.logb_le_logb_of_le one_lt_two (by positivity)
      rw [div_le_iff₀ hcount]
      nlinarith
    calc -(∑ c in s.toFinset, ((s.count c : ℝ) / (s.length : ℝ)) *
            Real.logb 2 ((s.count c : ℝ) / (s.length : ℝ)))
        = ∑ c in s.toFinset, -(((s.count c : ℝ) / (s.length : ℝ)) *
            Real.logb 2 ((s.count c : ℝ) / (s.length : ℝ))) := by
          rw [← Finset.sum_neg_distrib]
      _ ≤ ∑ c in s.toFinset,
            ((s.count c : ℝ) / (s.length : ℝ)) * Real.logb 2 (s.length : ℝ) :=
          Finset.sum_le_sum hterm
      _ = ((∑ c in s.toFinset, (s.count c : ℝ)) / (s.length : ℝ)) *
            Real.logb 2 (s.length : ℝ) := by
          rw [Finset.sum_div, Finset.sum_mul]
      _ = Real.logb 2 (s.length : ℝ) := by
          have hsum : (∑ c in s.toFinset, (s.count c : ℝ)) = (s.length : ℝ) := by
            rw [← Nat.cast_sum]
            exact_mod_cast congrArg Nat.cast (List.sum_toFinset_count_eq_length s)
          rw [hsum, div_self (ne_of_gt hlen), one_mul]

lemma logb_len_lt_five {n : ℕ} (h2 : n ≤ 31) : Real.logb 2 (n : ℝ) < 5 := by
  rcases Nat.eq_zero_or_pos n with h0 | h0
  · subst h0
    simp [Real.logb]
  · have hlt : (n:ℝ) < 32 := by
      have : n < 32 := by omega
      exact_mod_cast this
    have h32 : Real.logb 2 (32:ℝ) = 5 := by
      rw [show (32:ℝ) = (2:ℝ) ^ (5:ℕ) by norm_num, Real.logb_pow,
        Real.logb_self_eq_one one_lt_two]
      norm_num
    calc Real.logb 2 (n : ℝ) < Real.logb 2 (32:ℝ) :=
          Real.logb_lt_logb one_lt_two (by exact_mod_cast h0) hlt
      _ = 5 := h32

lemma entropy_not_high {s : List Char} (h : s.length ≤ 31) :
    ¬ ((5:ℝ) < calculate_entropy s) := by
  push_neg
  calc calculate_entropy s ≤ Real.logb 2 (s.length : ℝ) := calculate_entropy_le s
    _ ≤ 5 := le_of_lt (logb_len_lt_five h)

lemma c03_lt_c06 : c03 < c06 := by
  rw [c03_eq, c06_eq]
  norm_num

/-- Claim C2: the verdict classification is a pure total function of the
final score alone: score ≤ 0.3 gives level "Safe" with safeToVisit true;
0.3 < score ≤ 0.6 gives "Suspicious" with safeToVisit false; score > 0.6
gives "High Risk" with safeToVisit false; and, independently of the level,
isMalicious = (score > 0.5) and actionRequired = (score > 0.3), where the
thresholds are the binary64 values of the source's literals. -/
theorem claim_C2 (s : ℚ) (url : String) (f : FeatureVector) (conf : String)
    (ind : List String) (gsb : GsbResult) (vt : VtResult) :
    (s ≤ c03 → classifyScore s =
      ("Safe", "This URL appears to be safe. Exercise normal caution.", true)) ∧
    (c03 < s → s ≤ c06 → classifyScore s =
      ("Suspicious",
       "This URL shows some suspicious characteristics. Proceed with caution.", false)) ∧
    (c06 < s → classifyScore s =
      ("High Risk",
       "This URL shows multiple high-risk indicators. Do not visit this URL.", false)) ∧
    (finalize url f s conf ind gsb vt).threatLevel = (classifyScore s).1 ∧
    (finalize url f s conf ind gsb vt).safeToVisit = (classifyScore s).2.2 ∧
    (finalize url f s conf ind gsb vt).recommendation = (classifyScore s).2.1 ∧
    (finalize url f s conf ind gsb vt).isMalicious = decide (c05 < s) ∧
    (finalize url f s conf ind gsb vt).actionRequired = decide (c03 < s) := by
  refine ⟨?_, ?_, ?_, rfl, rfl, rfl, rfl, rfl⟩
  · intro h
    unfold classifyScore
    rw [if_pos h]
  · intro h1 h2
    unfold classifyScore
    rw [if_neg (not_le.mpr h1), if_pos h2]
  · intro h
    unfold classifyScore
    rw [if_neg (not_le.mpr (lt_trans c03_lt_c06 h)), if_neg (not_le.mpr h)]

/-- Witness for C2 at the concrete scores 0.2, 0.4 and 0.7. -/
theorem claim_C2_witness :
    classifyScore (1/5) =
      ("Safe", "This URL appears to be safe. Exercise normal caution.", true) ∧
    classifyScore (2/5) =
      ("Suspicious",
       "This URL shows some suspicious characteristics. Proceed with caution.", false) ∧
    classifyScore (7/10) =
      ("High Risk",
       "This URL shows multiple high-risk indicators. Do not visit this URL.", false) := by
  refine ⟨?_, ?_, ?_⟩
  · exact (claim_C2 (1/5) "" ⟨0,0,0,0,0,0,0,0⟩ "" [] GsbResult.noKey VtResult.noKey).1
      (by rw [c03_eq]; norm_num)
  · exact (claim_C2 (2/5) "" ⟨0,0,0,0,0,0,0,0⟩ "" [] GsbResult.noKey VtResult.noKey).2.1
      (by rw [c03_eq]; norm_num) (by rw [c06_eq]; norm_num)
  · exact (claim_C2 (7/10) "" ⟨0,0,0,0,0,0,0,0⟩ "" [] GsbResult.noKey VtResult.noKey).2.2.1
      (by rw [c06_eq]; norm_num)

/-- Claim C5: fusion with an enabled blocklist signal carrying at least one
match yields score min(fadd(score, 0.3), 1.0) (exactly 0.30 in binary64,
clamped at 1.0), appends "Flagged by Google Safe Browsing" and forces
confidence "High"; an enabled reputation-lookup signal appends
"Analyzed by VirusTotal" and leaves the score unchanged. -/
theorem claim_C5 (ts : ℚ) (ind : List String) (conf : String) (ms : List String)
    (vt : VtResult) (gsb : GsbResult) (d : List String) :
    (ms ≠ [] →
      fuse ts ind conf (GsbResult.ok ms) vt =
        (min (fadd ts c03) 1,
         (ind ++ ["Flagged by Google Safe Browsing"]) ++
           (if vt.enabled then ["Analyzed by VirusTotal"] else []),
         "High")) ∧
    (fuse ts ind conf gsb (VtResult.ok d)).1 = (fuse ts ind conf gsb VtResult.clean).1 ∧
    (fuse ts ind conf gsb (VtResult.ok d)).2.2 = (fuse ts ind conf gsb VtResult.clean).2.2 ∧
    (fuse ts ind conf gsb (VtResult.ok d)).2.1 =
      (fuse ts ind conf gsb VtResult.clean).2.1 ++ ["Analyzed by VirusTotal"] := by
  refine ⟨?_, ?_, ?_, ?_⟩
  · intro hms
    have hne : ((GsbResult.ok ms).enabled && (GsbResult.ok ms).hasMatches) = true := by
      simp [GsbResult.enabled, GsbResult.hasMatches, hms]
    unfold fuse
    rw [if_pos hne]
    cases hv : vt.enabled <;> simp [hv]
  · unfold fuse
    by_cases hg : (gsb.enabled && gsb.hasMatches) = true <;>
      simp [hg, VtResult.enabled]
  · unfold fuse
    by_cases hg : (gsb.enabled && gsb.hasMatches) = true <;>
      simp [hg, VtResult.enabled]
  · unfold fuse
    by_cases hg : (gsb.enabled && gsb.hasMatches) = true <;>
      simp [hg, VtResult.enabled]

/-- Witness for C5: one match, reputation lookup disabled. -/
theorem claim_C5_witness :
    fuse c01 ["No HTTPS encryption"] "Medium" (GsbResult.ok ["m"]) VtResult.noKey =
      (min (fadd c01 c03) 1,
       ["No HTTPS encryption", "Flagged by Google Safe Browsing"], "High") := by
  have h := (claim_C5 c01 ["No HTTPS encryption"] "Medium" ["m"] VtResult.noKey
    GsbResult.noKey []).1 (by simp)
  simpa [VtResult.enabled] using h

/-- Claim C6: every provider failure (exception/timeout or non-200
response) produces a disabled signal instead of raising out of fusion; a
missing API key short-circuits to the disabled "API key not configured"
signal independently of the network (i.e. before any network call); and
fusion with both signals disabled returns the base score, indicator list
and confidence unchanged. -/
theorem claim_C6 :
    (∀ net : NetOutcome, get_google_safe_browsing "" net = GsbResult.noKey) ∧
    GsbResult.noKey.enabled = false ∧
    GsbResult.noKey.result = some "API key not configured" ∧
    (∀ net : NetOutcome, get_virustotal_analysis "" net = VtResult.noKey) ∧
    VtResult.noKey.enabled = false ∧
    VtResult.noKey.result = some "API key not configured" ∧
    (∀ (key msg : String), (get_google_safe_browsing key (NetOutcome.exc msg)).enabled = false) ∧
    (∀ (key : String) (st : ℕ) (p : List String), st ≠ 200 →
      (get_google_safe_browsing key (NetOutcome.resp st p)).enabled = false) ∧
    (∀ (key msg : String), (get_virustotal_analysis key (NetOutcome.exc msg)).enabled = false) ∧
    (∀ (key : String) (st : ℕ) (p : List String), st ≠ 200 →
      (get_virustotal_analysis key (NetOutcome.resp st p)).enabled = false) ∧
    (∀ (ts : ℚ) (ind : List String) (conf : String) (gsb : GsbResult) (vtr : VtResult),
      gsb.enabled = false → vtr.enabled = false →
      fuse ts ind conf gsb vtr = (ts, ind, conf)) := by
  refine ⟨?_, rfl, rfl, ?_, rfl, rfl, ?_, ?_, ?_, ?_, ?_⟩
  · intro net
    unfold get_google_safe_browsing
    rw [if_pos rfl]
  · intro net
    unfold get_virustotal_analysis
    rw [if_pos rfl]
  · intro key msg
    unfold get_google_safe_browsing
    by_cases hk : key = "" <;> simp [hk, GsbResult.enabled]
  · intro key st p hst
    unfold get_google_safe_browsing
    by_cases hk : key = "" <;> simp [hk, hst, GsbResult.enabled]
  · intro key msg
    unfold get_virustotal_analysis
    by_cases hk : key = "" <;> simp [hk, VtResult.enabled]
  · intro key st p hst
    unfold get_virustotal_analysis
    by_cases hk : key = "" <;> simp [hk, hst, VtResult.enabled]
  · intro ts ind conf gsb vtr hg hv
    unfold fuse
    have hgg : ¬ ((gsb.enabled && gsb.hasMatches) = true) := by
      simp [hg]
    rw [if_neg hgg]
    simp [hv]

/-- Witness for C6: a timeout with a configured key, a 500 response, a
missing key, and pass-through fusion on concrete disabled signals. -/
theorem claim_C6_witness :
    get_google_safe_browsing "" (NetOutcome.exc "timeout") = GsbResult.noKey ∧
    (get_google_safe_browsing "k" (NetOutcome.exc "timeout")).enabled = false ∧
    (get_google_safe_browsing "k" (NetOutcome.resp 500 [])).enabled = false ∧
    (get_virustotal_analysis "k" (NetOutcome.resp 429 [])).enabled = false ∧
    fuse c01 ["No HTTPS encryption"] "Medium" (GsbResult.err "timeout") VtResult.noKey =
      (c01, ["No HTTPS encryption"], "Medium") :=
  ⟨claim_C6.1 (NetOutcome.exc "timeout"),
   claim_C6.2.2.2.2.2.2.1 "k" "timeout",
   claim_C6.2.2.2.2.2.2.2.1 "k" 500 [] (by decide),
   claim_C6.2.2.2.2.2.2.2.2.2.1 "k" 429 [] (by decide),
   claim_C6.2.2.2.2.2.2.2.2.2.2 c01 ["No HTTPS encryption"] "Medium"
     (GsbResult.err "timeout") VtResult.noKey rfl rfl⟩

/-- Counterexample to claim C3: "1234567" consists of 7 digits and
contains no '/', yet `extract_features` reports has_ip = 0, not 1: the
source only runs its IP check when the URL contains a '/'. -/
theorem claim_C3_counterexample :
    ('/' ∉ ("1234567" : String).data ∧ pyIsdigit ("1234567" : String).data = true ∧
      7 ≤ ("1234567" : String).data.length) ∧
    (extract_features "1234567").has_ip ≠ 1 ∧
    (extract_features "1234567").has_ip = 0 := by
  refine ⟨⟨by decide, by decide, by decide⟩, ?_, ?_⟩ <;> decide

/-- Claim C3 as amended: for every URL string that contains no '/', the
whole has_ip block is skipped and `extract_features` returns has_ip = 0
(in particular also for all-digit strings of length at least 7). -/
theorem claim_C3_amended (url : String) (h : '/' ∉ url.data) :
    (extract_features url).has_ip = 0 := by
  simp only [extract_features]
  rw [if_neg h]

/-- Witness for the amended C3 at the all-digit input "1234567". -/
theorem claim_C3_amended_witness :
    '/' ∉ ("87654321" : String).data ∧ (extract_features "87654321").has_ip = 0 :=
  ⟨by decide, claim_C3_amended "87654321" (by decide)⟩

/-- Claim C9: entropy of the empty string is 0; entropy of a non-empty
string over a single repeated character is 0; entropy is invariant under
permutation of the character positions (it depends only on the character
frequency multiset). -/
theorem claim_C9 :
    calculate_entropy [] = 0 ∧
    (∀ (c : Char) (n : ℕ), 0 < n → calculate_entropy (List.replicate n c) = 0) ∧
    (∀ s t : List Char, s.Perm t → calculate_entropy s = calculate_entropy t) :=
  ⟨calculate_entropy_nil, fun c _ hn => calculate_entropy_replicate c hn,
   fun _ _ h => calculate_entropy_perm h⟩

/-- Witness for C9: "aaaa" has zero entropy and "ab" / "ba" have equal
entropy. -/
theorem claim_C9_witness :
    calculate_entropy (List.replicate 4 'a') = 0 ∧
    calculate_entropy ("ab" : String).data = calculate_entropy ("ba" : String).data :=
  ⟨claim_C9.2.1 'a' 4 (by norm_num),
   claim_C9.2.2 ("ab" : String).data ("ba" : String).data (by decide)⟩

/-- Elementwise comparison of fired-delta lists: the left list omits some
nonnegative deltas of the right list and bounds the kept ones. -/
inductive ChunkLE : List ℚ → List ℚ → Prop
  | nil : ChunkLE [] []
  | skip (d : ℚ) (hd : 0 ≤ d) {l1 l2 : List ℚ} (h : ChunkLE l1 l2) : ChunkLE l1 (d :: l2)
  | cons (d d' : ℚ) (hd : 0 ≤ d) (hdd : d ≤ d') {l1 l2 : List ℚ} (h : ChunkLE l1 l2) :
      ChunkLE (d :: l1) (d' :: l2)

lemma ChunkLE.append {a b c d : List ℚ} (h1 : ChunkLE a b) (h2 : ChunkLE c d) :
    ChunkLE (a ++ c) (b ++ d) := by
  induction h1 with
  | nil => simpa using h2
  | skip e he h ih => exact ChunkLE.skip e he ih
  | cons e f he hef h ih => exact ChunkLE.cons e f he hef ih

lemma foldl_fadd_chunkLE {l1 l2 : List ℚ} (h : ChunkLE l1 l2) :
    ∀ a b : ℚ, 0 ≤ a → a ≤ b → FRep a → FRep b →
      List.foldl fadd a l1 ≤ List.foldl fadd b l2 := by
  induction h with
  | nil =>
      intro a b _ hab _ _
      exact hab
  | skip d hd h ih =>
      intro a b ha hab hra hrb
      have hb : 0 ≤ b := le_trans ha hab
      simp only [List.foldl_cons]
      refine ih a (fadd b d) ha ?_ hra (fadd_rep hb hd)
      exact le_trans hab (le_fadd_self hb hrb hd)
  | cons d d' hd hdd h ih =>
      intro a b ha hab hra hrb
      have hb : 0 ≤ b := le_trans ha hab
      simp only [List.foldl_cons]
      refine ih (fadd a d) (fadd b d') (fadd_nonneg ha hd) ?_ (fadd_rep ha hd)
        (fadd_rep hb (le_trans hd hdd))
      exact roundDouble_mono (by linarith) (by linarith)

lemma chunk_le_of_le {c1 c2 : Prop} [Decidable c1] [Decidable c2] (h : c1 → c2)
    {d d' : ℚ} (hd : 0 ≤ d) (hdd : d ≤ d') :
    ChunkLE (if c1 then [d] else []) (if c2 then [d'] else []) := by
  by_cases h1 : c1
  · rw [if_pos h1, if_pos (h h1)]
    exact ChunkLE.cons d d' hd hdd ChunkLE.nil
  · rw [if_neg h1]
    by_cases h2 : c2
    · rw [if_pos h2]
      exact ChunkLE.skip d' (le_trans hd hdd) ChunkLE.nil
    · rw [if_neg h2]
      exact ChunkLE.nil

/-- Pointwise dominance of the eight rule-trigger conditions of §4.2:
every rule that fires on `f` also fires on `g` (and the keyword count,
whose delta scales with the count, is no smaller on `g`). -/
def FeatureVector.Dominates (g f : FeatureVector) : Prop :=
  (80 < f.url_length → 80 < g.url_length) ∧
  (4 < f.dot_count → 4 < g.dot_count) ∧
  (f.has_ip ≠ 0 → g.has_ip ≠ 0) ∧
  (f.has_https = 0 → g.has_https = 0) ∧
  f.suspicious_keywords ≤ g.suspicious_keywords ∧
  (0 < f.tld_risk_score → 0 < g.tld_risk_score) ∧
  (3 < f.subdomain_count → 3 < g.subdomain_count) ∧
  ((5:ℝ) < f.entropy → (5:ℝ) < g.entropy)

lemma ruleDeltas_chunkLE {f g : FeatureVector} (h : FeatureVector.Dominates g f) :
    ChunkLE (ruleDeltas f) (ruleDeltas g) := by
  obtain ⟨h1, h2, h3, h4, h5, h6, h7, h8⟩ := h
  unfold ruleDeltas
  exact ChunkLE.append (ChunkLE.append (ChunkLE.append (ChunkLE.append (ChunkLE.append
    (ChunkLE.append (ChunkLE.append
      (chunk_le_of_le h1 c015_nonneg (le_refl _))
      (chunk_le_of_le h2 c01_nonneg (le_refl _)))
      (chunk_le_of_le h3 c025_nonneg (le_refl _)))
      (chunk_le_of_le h4 c01_nonneg (le_refl _)))
      (chunk_le_of_le (fun hk => lt_of_lt_of_le hk h5)
        (fmul_nonneg c01_nonneg) (fmul_mono c01_nonneg h5)))
      (chunk_le_of_le h6 c02_nonneg (le_refl _)))
      (chunk_le_of_le h7 c01_nonneg (le_refl _)))
      (chunk_le_of_le h8 c015_nonneg (le_refl _))

lemma nonneg_of_mem_chunk {c : Prop} [Decidable c] {x d : ℚ} (hx : 0 ≤ x)
    (h : d ∈ (if c then [x] else [])) : 0 ≤ d := by
  split at h
  · simp at h
    subst h
    exact hx
  · simp at h

lemma ruleDeltas_nonneg (f : FeatureVector) : ∀ d ∈ ruleDeltas f, 0 ≤ d := by
  intro d hd
  unfold ruleDeltas at hd
  simp only [List.mem_append] at hd
  rcases hd with ((((((hx | hx) | hx) | hx) | hx) | hx) | hx) | hx
  exacts [nonneg_of_mem_chunk c015_nonneg hx, nonneg_of_mem_chunk c01_nonneg hx,
    nonneg_of_mem_chunk c025_nonneg hx, nonneg_of_mem_chunk c01_nonneg hx,
    nonneg_of_mem_chunk (fmul_nonneg c01_nonneg) hx, nonneg_of_mem_chunk c02_nonneg hx,
    nonneg_of_mem_chunk c01_nonneg hx, nonneg_of_mem_chunk c015_nonneg hx]

set_option maxHeartbeats 1000000 in
lemma predict_threat_eq_fold (f : FeatureVector) :
    predict_threat f = (min (List.foldl fadd 0 (ruleDeltas f)) 1, "Medium") := by
  simp only [predict_threat, ruleDeltas]
  split_ifs <;> rfl

lemma hscore_nonneg (f : FeatureVector) : 0 ≤ (predict_threat f).1 := by
  rw [predict_threat_eq_fold]
  exact le_min (foldl_fadd_nonneg (ruleDeltas_nonneg f) (le_refl 0)) (by norm_num)

lemma hscore_le_one (f : FeatureVector) : (predict_threat f).1 ≤ 1 := by
  rw [predict_threat_eq_fold]
  exact min_le_right _ _

lemma hscore_mono {f g : FeatureVector} (h : FeatureVector.Dominates g f) :
    (predict_threat f).1 ≤ (predict_threat g).1 := by
  rw [predict_threat_eq_fold, predict_threat_eq_fold]
  exact min_le_min
    (foldl_fadd_chunkLE (ruleDeltas_chunkLE h) 0 0 (le_refl 0) (le_refl 0)
      FRep_zero FRep_zero)
    (le_refl 1)

/-- Claim C4: in heuristic mode the score equals the binary64 sum of
exactly the fired rule deltas of the §4.2 table (+0.15 for length>80,
+0.10 for dots>4, +0.25 for has_ip, +0.10 for missing https,
+0.10×count for keywords, +0.20 for risky TLD, +0.10 for subdomain
depth>3, +0.15 for entropy>5) clamped to [0,1]; it is monotonically
non-decreasing in each rule-triggering condition held independently
(stated via pointwise dominance of the trigger conditions); and the
heuristic-path confidence is always "Medium". -/
theorem claim_C4 :
    (∀ f : FeatureVector,
      predict_threat f = (min (List.foldl fadd 0 (ruleDeltas f)) 1, "Medium")) ∧
    (∀ f : FeatureVector, 0 ≤ (predict_threat f).1 ∧ (predict_threat f).1 ≤ 1) ∧
    (∀ f g : FeatureVector, FeatureVector.Dominates g f →
      (predict_threat f).1 ≤ (predict_threat g).1) ∧
    (∀ f : FeatureVector, (predict_threat f).2 = "Medium") :=
  ⟨predict_threat_eq_fold, fun f => ⟨hscore_nonneg f, hscore_le_one f⟩,
   fun _ _ h => hscore_mono h, fun f => by rw [predict_threat_eq_fold]⟩

/-- Witness for C4 on concrete feature vectors: the second toggles the
missing-https rule on and raises the keyword count. -/
theorem claim_C4_witness :
    predict_threat ⟨10, 1, 0, 1, 0, 0, 0, 0⟩ =
      (min (List.foldl fadd 0 (ruleDeltas ⟨10, 1, 0, 1, 0, 0, 0, 0⟩)) 1, "Medium") ∧
    (predict_threat ⟨10, 1, 0, 1, 0, 0, 0, 0⟩).1 ≤
      (predict_threat ⟨10, 1, 0, 0, 2, 0, 0, 0⟩).1 :=
  ⟨claim_C4.1 ⟨10, 1, 0, 1, 0, 0, 0, 0⟩,
   claim_C4.2.2.1 ⟨10, 1, 0, 1, 0, 0, 0, 0⟩ ⟨10, 1, 0, 0, 2, 0, 0, 0⟩
     ⟨id, id, id, fun _ => rfl, by norm_num, id, id, id⟩⟩

lemma analyze_url_eq (gk vk : String) (gn vn : NetOutcome) (url : String) :
    analyze_url gk vk gn vn url =
      finalize url (extract_features url)
        (fuse (predict_threat (extract_features url)).1
          (baseIndicators (extract_features url))
          (predict_threat (extract_features url)).2
          (get_google_safe_browsing gk gn) (get_virustotal_analysis vk vn)).1
        (fuse (predict_threat (extract_features url)).1
          (baseIndicators (extract_features url))
          (predict_threat (extract_features url)).2
          (get_google_safe_browsing gk gn) (get_virustotal_analysis vk vn)).2.2
        (fuse (predict_threat (extract_features url)).1
          (baseIndicators (extract_features url))
          (predict_threat (extract_features url)).2
          (get_google_safe_browsing gk gn) (get_virustotal_analysis vk vn)).2.1
        (get_google_safe_browsing gk gn) (get_virustotal_analysis vk vn) := rfl

lemma finalize_threatScore (url : String) (f : FeatureVector) (ts : ℚ) (conf : String)
    (ind : List String) (gsb : GsbResult) (vt : VtResult) :
    (finalize url f ts conf ind gsb vt).threatScore = pyRound2 ts := rfl

lemma fuse_fst_bounds {ts : ℚ} (h0 : 0 ≤ ts) (h1 : ts ≤ 1) (ind : List String)
    (conf : String) (gsb : GsbResult) (vt : VtResult) :
    0 ≤ (fuse ts ind conf gsb vt).1 ∧ (fuse ts ind conf gsb vt).1 ≤ 1 := by
  by_cases hg : (gsb.enabled && gsb.hasMatches) = true
  · have hval : (fuse ts ind conf gsb vt).1 = min (fadd ts c03) 1 := by
      simp [fuse, hg]
    rw [hval]
    exact ⟨le_min (fadd_nonneg h0 c03_nonneg) (by norm_num), min_le_right _ _⟩
  · have hval : (fuse ts ind conf gsb vt).1 = ts := by
      simp [fuse, hg]
    rw [hval]
    exact ⟨h0, h1⟩

lemma fuse_snd_of_disabled {gsb : GsbResult} {vt : VtResult}
    (hg : gsb.hasMatches = false) (hv : vt.enabled = false) (ts : ℚ)
    (ind : List String) (conf : String) :
    (fuse ts ind conf gsb vt).2.1 = ind := by
  unfold fuse
  simp [hg, hv]

lemma finalize_indicators_ne_nil (url : String) (f : FeatureVector) (ts : ℚ)
    (conf : String) (ind : List String) (gsb : GsbResult) (vt : VtResult) :
    (finalize url f ts conf ind gsb vt).indicators ≠ [] := by
  unfold finalize
  by_cases h : ind = [] <;> simp [h]

/-- Claim C7: for every URL and every outcome of the external signals, the
verdict's reported threatScore lies in [0,1] and its indicator list is
non-empty; when no rule indicator and no fusion indicator was produced,
the list is exactly the single fallback entry. -/
theorem claim_C7 (gk vk : String) (gn vn : NetOutcome) (url : String) :
    (0 ≤ (analyze_url gk vk gn vn url).threatScore ∧
      (analyze_url gk vk gn vn url).threatScore ≤ 1) ∧
    (analyze_url gk vk gn vn url).indicators ≠ [] ∧
    (baseIndicators (extract_features url) = [] →
      (get_google_safe_browsing gk gn).hasMatches = false →
      (get_virustotal_analysis vk vn).enabled = false →
      (analyze_url gk vk gn vn url).indicators =
        ["No specific threat indicators detected"]) := by
  refine ⟨?_, ?_, ?_⟩
  · rw [analyze_url_eq, finalize_threatScore]
    have hb := fuse_fst_bounds (hscore_nonneg (extract_features url))
      (hscore_le_one (extract_features url)) (baseIndicators (extract_features url))
      (predict_threat (extract_features url)).2
      (get_google_safe_browsing gk gn) (get_virustotal_analysis vk vn)
    exact pyRound2_mem_unit hb.1 hb.2
  · rw [analyze_url_eq]
    exact finalize_indicators_ne_nil _ _ _ _ _ _ _
  · intro hb hg hv
    rw [analyze_url_eq, fuse_snd_of_disabled hg hv, hb]
    unfold finalize
    simp

/-- Witness for C7 at "https://a.b" with both providers disabled: no rule
fires, so the verdict carries the fallback indicator. -/
theorem claim_C7_witness :
    (0 ≤ (analyze_url "" "" (NetOutcome.resp 0 []) (NetOutcome.resp 0 [])
        "https://a.b").threatScore ∧
      (analyze_url "" "" (NetOutcome.resp 0 []) (NetOutcome.resp 0 [])
        "https://a.b").threatScore ≤ 1) ∧
    (analyze_url "" "" (NetOutcome.resp 0 []) (NetOutcome.resp 0 [])
      "https://a.b").indicators ≠ [] ∧
    (analyze_url "" "" (NetOutcome.resp 0 []) (NetOutcome.resp 0 [])
      "https://a.b").indicators = ["No specific threat indicators detected"] := by
  have h := claim_C7 "" "" (NetOutcome.resp 0 []) (NetOutcome.resp 0 []) "https://a.b"
  refine ⟨h.1, h.2.1, h.2.2 ?_ (by decide) (by decide)⟩
  have hlen : (extract_features "https://a.b").url_length = 11 := by decide
  have hdot : (extract_features "https://a.b").dot_count = 1 := by decide
  have hip : (extract_features "https://a.b").has_ip = 0 := by decide
  have hhttps : (extract_features "https://a.b").has_https = 1 := by decide
  have hkw : (extract_features "https://a.b").suspicious_keywords = 0 := by decide
  have htld : (extract_features "https://a.b").tld_risk_score = 0 := by decide
  have hsub : (extract_features "https://a.b").subdomain_count = 1 := by decide
  have hent : ¬ ((5:ℝ) < (extract_features "https://a.b").entropy) := by
    have he : (extract_features "https://a.b").entropy =
        calculate_entropy ("https://a.b" : String).data := rfl
    rw [he]
    exact entropy_not_high (by decide)
  unfold baseIndicators
  rw [hlen, hdot, hip, hhttps, hkw, htld, hsub]
  simp [hent]

lemma mem_baseIndicators_dot {f : FeatureVector} (h : 4 < f.dot_count) :
    "Excessive subdomains/dots" ∈ baseIndicators f := by
  unfold baseIndicators
  simp [h]

lemma mem_baseIndicators_ip {f : FeatureVector} (h : f.has_ip ≠ 0) :
    "IP address detected instead of domain" ∈ baseIndicators f := by
  unfold baseIndicators
  simp [h]

lemma mem_fuse {x : String} {ind : List String} (hx : x ∈ ind) (ts : ℚ)
    (conf : String) (gsb : GsbResult) (vt : VtResult) :
    x ∈ (fuse ts ind conf gsb vt).2.1 := by
  unfold fuse
  by_cases hg : (gsb.enabled && gsb.hasMatches) = true <;>
    by_cases hv : vt.enabled = true <;>
      simp [hg, hv, hx]

lemma mem_finalize_indicators {x : String} {ind : List String} (hx : x ∈ ind)
    (url : String) (f : FeatureVector) (ts : ℚ) (conf : String) (gsb : GsbResult)
    (vt : VtResult) : x ∈ (finalize url f ts conf ind gsb vt).indicators := by
  unfold finalize
  have hne : ind ≠ [] := List.ne_nil_of_mem hx
  simp [hne, hx]

/-- Claim C8 as amended: the verdict's base indicator list is computed
from the raw feature thresholds, and for every URL whose features have
dot_count > 4 the indicators contain the exact text
"Excessive subdomains/dots", and with has_ip set they contain the exact
text "IP address detected instead of domain" (the §4.2 texts
"Excessive subdomains" / "IP address in URL" appear only in the discarded
local list of the heuristic scorer, not in the verdict). -/
theorem claim_C8_amended (gk vk : String) (gn vn : NetOutcome) (url : String) :
    (4 < (extract_features url).dot_count →
      "Excessive subdomains/dots" ∈ (analyze_url gk vk gn vn url).indicators) ∧
    ((extract_features url).has_ip ≠ 0 →
      "IP address detected instead of domain" ∈
        (analyze_url gk vk gn vn url).indicators) := by
  constructor
  · intro h
    rw [analyze_url_eq]
    exact mem_finalize_indicators (mem_fuse (mem_baseIndicators_dot h) _ _ _ _) _ _ _ _ _ _
  · intro h
    rw [analyze_url_eq]
    exact mem_finalize_indicators (mem_fuse (mem_baseIndicators_ip h) _ _ _ _) _ _ _ _ _ _

/-- Witness for the amended C8 at "http://1.2.3.4.5.67/x" (5 dots, 7-digit
host). -/
theorem claim_C8_amended_witness :
    "Excessive subdomains/dots" ∈ (analyze_url "" "" (NetOutcome.resp 0 [])
      (NetOutcome.resp 0 []) "http://1.2.3.4.5.67/x").indicators ∧
    "IP address detected instead of domain" ∈ (analyze_url "" ""
      (NetOutcome.resp 0 []) (NetOutcome.resp 0 []) "http://1.2.3.4.5.67/x").indicators :=
  ⟨(claim_C8_amended "" "" (NetOutcome.resp 0 []) (NetOutcome.resp 0 [])
      "http://1.2.3.4.5.67/x").1 (by decide),
   (claim_C8_amended "" "" (NetOutcome.resp 0 []) (NetOutcome.resp 0 [])
      "http://1.2.3.4.5.67/x").2 (by decide)⟩

/-- Counterexample to claim C8 as stated: "http://1.2.3.4.5.67/x" triggers
both the dot_count > 4 and the has_ip rules, yet neither §4.2 indicator
text "Excessive subdomains" nor "IP address in URL" appears in the
verdict's indicators (the verdict uses different texts for these rules). -/
theorem claim_C8_counterexample :
    4 < (extract_features "http://1.2.3.4.5.67/x").dot_count ∧
    (extract_features "http://1.2.3.4.5.67/x").has_ip ≠ 0 ∧
    ("Excessive subdomains" ∉ (analyze_url "" "" (NetOutcome.resp 0 [])
        (NetOutcome.resp 0 []) "http://1.2.3.4.5.67/x").indicators ∧
     "IP address in URL" ∉ (analyze_url "" "" (NetOutcome.resp 0 [])
        (NetOutcome.resp 0 []) "http://1.2.3.4.5.67/x").indicators) := by
  refine ⟨by decide, by decide, ?_⟩
  have hlen : (extract_features "http://1.2.3.4.5.67/x").url_length = 21 := by decide
  have hdot : (extract_features "http://1.2.3.4.5.67/x").dot_count = 5 := by decide
  have hip : (extract_features "http://1.2.3.4.5.67/x").has_ip = 1 := by decide
  have hhttps : (extract_features "http://1.2.3.4.5.67/x").has_https = 0 := by decide
  have hkw : (extract_features "http://1.2.3.4.5.67/x").suspicious_keywords = 0 := by decide
  have htld : (extract_features "http://1.2.3.4.5.67/x").tld_risk_score = 0 := by decide
  have hsub : (extract_features "http://1.2.3.4.5.67/x").subdomain_count = 5 := by decide
  have hbase : baseIndicators (extract_features "http://1.2.3.4.5.67/x") =
      ["Excessive subdomains/dots", "IP address detected instead of domain",
       "No HTTPS encryption", "Excessive subdomain depth"] ++
      (if (5:ℝ) < (extract_features "http://1.2.3.4.5.67/x").entropy
       then ["High URL entropy (obfuscation indicator)"] else []) := by
    unfold baseIndicators
    rw [hlen, hdot, hip, hhttps, hkw, htld, hsub]
    simp
  have hne : baseIndicators (extract_features "http://1.2.3.4.5.67/x") ≠ [] := by
    rw [hbase]
    simp
  have hg : (get_google_safe_browsing "" (NetOutcome.resp 0 [])).hasMatches = false := by
    decide
  have hv : (get_virustotal_analysis "" (NetOutcome.resp 0 [])).enabled = false := by
    decide
  have hind : (analyze_url "" "" (NetOutcome.resp 0 []) (NetOutcome.resp 0 [])
      "http://1.2.3.4.5.67/x").indicators =
      baseIndicators (extract_features "http://1.2.3.4.5.67/x") := by
    rw [analyze_url_eq, fuse_snd_of_disabled hg hv]
    unfold finalize
    simp [hne]
  rw [hind, hbase]
  rcases Classical.em
    ((5:ℝ) < (extract_features "http://1.2.3.4.5.67/x").entropy) with he | he
  · rw [if_pos he]
    exact ⟨by decide, by decide⟩
  · rw [if_neg he]
    exact ⟨by decide, by decide⟩

lemma fuse_fst_of_disabled {gsb : GsbResult} (hg : gsb.hasMatches = false) (ts : ℚ)
    (ind : List String) (conf : String) (vt : VtResult) :
    (fuse ts ind conf gsb vt).1 = ts := by
  unfold fuse
  simp [hg]

lemma finalize_threatLevel (url : String) (f : FeatureVector) (ts : ℚ) (conf : String)
    (ind : List String) (gsb : GsbResult) (vt : VtResult) :
    (finalize url f ts conf ind gsb vt).threatLevel = (classifyScore ts).1 := rfl

/-- The URL of end-to-end scenario 1. -/
def urlScenario1 : String := "http://192.168.1.1.xyz/verify-account-update"

lemma predict_u1_eval :
    (predict_threat (extract_features urlScenario1)).1 =
      (if (5:ℝ) < (extract_features urlScenario1).entropy
       then 6755399441055745 / 2 ^ (53:ℕ) else 5404319552844596 / 2 ^ (53:ℕ)) := by
  have hlen : (extract_features urlScenario1).url_length = 44 := by decide
  have hdot : (extract_features urlScenario1).dot_count = 4 := by decide
  have hip : (extract_features urlScenario1).has_ip = 0 := by decide
  have hhttps : (extract_features urlScenario1).has_https = 0 := by decide
  have hkw : (extract_features urlScenario1).suspicious_keywords = 3 := by decide
  have htld : (extract_features urlScenario1).tld_risk_score = 1 := by decide
  have hsub : (extract_features urlScenario1).subdomain_count = 3 := by decide
  simp only [predict_threat]
  rw [hlen, hdot, hip, hhttps, hkw, htld, hsub]
  norm_num
  rw [fadd_zero_c01, fmul_three_c01, fadd_c01_kw3, fadd_04_c02, fadd_06_c015]
  rw [apply_ite (fun x : ℚ => min x 1)]
  rw [min_eq_left (by norm_num), min_eq_left (by norm_num)]
  norm_num

/-- Claim C1: analysing "http://192.168.1.1.xyz/verify-account-update" in
heuristic mode with both providers disabled yields has_ip = 0,
has_https = 0, 3 suspicious keywords, tld_risk_score = 1, a heuristic
score of at least 0.6 before fusion, and the verdict level "High Risk"
(the binary64 sum 0.1 + 3·0.1 + 0.2 evaluates to 0.6000000000000001,
which lies strictly above the 0.6 threshold). -/
theorem claim_C1 :
    (extract_features urlScenario1).has_ip = 0 ∧
    (extract_features urlScenario1).has_https = 0 ∧
    (extract_features urlScenario1).suspicious_keywords = 3 ∧
    (extract_features urlScenario1).tld_risk_score = 1 ∧
    (3:ℚ)/5 ≤ (predict_threat (extract_features urlScenario1)).1 ∧
    (analyze_url "" "" (NetOutcome.resp 0 []) (NetOutcome.resp 0 [])
      urlScenario1).threatLevel = "High Risk" := by
  refine ⟨by decide, by decide, by decide, by decide, ?_, ?_⟩
  · rw [predict_u1_eval]
    rcases Classical.em ((5:ℝ) < (extract_features urlScenario1).entropy) with he | he
    · rw [if_pos he]
      norm_num
    · rw [if_neg he]
      norm_num
  · rw [analyze_url_eq, finalize_threatLevel, fuse_fst_of_disabled (by decide),
      predict_u1_eval]
    rcases Classical.em ((5:ℝ) < (extract_features urlScenario1).entropy) with he | he
    · rw [if_pos he]
      unfold classifyScore
      rw [if_neg (by rw [c03_eq]; norm_num), if_neg (by rw [c06_eq]; norm_num)]
    · rw [if_neg he]
      unfold classifyScore
      rw [if_neg (by rw [c03_eq]; norm_num), if_neg (by rw [c06_eq]; norm_num)]

/-- Claim C10: the verdict reports threatScore as the 2-decimal rounding
of the internal score while threatLevel, safeToVisit, isMalicious and
actionRequired are computed from the unrounded internal score; at the
internal score float(0.304) the reported threatScore equals the binary64
0.3 and classifies as "Safe", yet the verdict's level is "Suspicious" and
actionRequired is true. -/
theorem claim_C10 :
    (∀ (url : String) (f : FeatureVector) (ts : ℚ) (conf : String)
       (ind : List String) (gsb : GsbResult) (vt : VtResult),
      (finalize url f ts conf ind gsb vt).threatScore = pyRound2 ts ∧
      (finalize url f ts conf ind gsb vt).threatLevel = (classifyScore ts).1 ∧
      (finalize url f ts conf ind gsb vt).safeToVisit = (classifyScore ts).2.2 ∧
      (finalize url f ts conf ind gsb vt).isMalicious = decide (c05 < ts) ∧
      (finalize url f ts conf ind gsb vt).actionRequired = decide (c03 < ts)) ∧
    pyRound2 (roundDouble (38/125)) ≤ c03 ∧
    (classifyScore (pyRound2 (roundDouble (38/125)))).1 = "Safe" ∧
    c03 < roundDouble (38/125) ∧
    (classifyScore (roundDouble (38/125))).1 = "Suspicious" ∧
    decide (c03 < roundDouble (38/125)) = true := by
  refine ⟨fun url f ts conf ind gsb vt => ⟨rfl, rfl, rfl, rfl, rfl⟩, ?_, ?_, ?_, ?_, ?_⟩
  · rw [s304_eq, pyRound2_s304]
  · rw [s304_eq, pyRound2_s304]
    unfold classifyScore
    rw [if_pos (le_refl c03)]
  · rw [s304_eq, c03_eq]
    norm_num
  · rw [s304_eq]
    unfold classifyScore
    rw [if_neg (by rw [c03_eq]; norm_num), if_pos (by rw [c06_eq]; norm_num)]
  · rw [s304_eq]
    rw [decide_eq_true_eq]
    rw [c03_eq]
    norm_num
